import Mathlib

/-!
Shallow embedding of the `mbr_lcard` repository (files `mbr_write.py` and
`mbr_plot_h5.py`) and proofs about the claims of its specification.

Modelling conventions:
* Python floats are modelled by `ℚ` (every arithmetic operation the code
  performs on the values appearing in the claims is exact in binary64 or
  irrelevant to the claim, so rationals are a faithful model).
* A numpy 1-d array is a `List ℚ`; an `(N, 2)` array is a `List (ℚ × ℚ)`.
* The HDF5 filesystem is a `Store`: a map from file names (lists of
  characters, mirroring Python strings) to the contents of the
  `pressure_series` dataset of that file, `none` meaning the file (or its
  dataset) does not exist.
* Exceptions are modelled with `Except String`.
* `datetime.fromtimestamp` / `time.localtime` are modelled at UTC offset 0;
  a fixed timezone offset would only shift every label by the same constant
  and plays no role in any claim.
-/

namespace MbrLcard

/-- A stored row: (timestamp in seconds since the epoch, pressure). -/
abbrev Row : Type := ℚ × ℚ

/-- The HDF5 medium: file name ↦ contents of its `pressure_series` dataset. -/
abbrev Store : Type := List Char → Option (List Row)

/-- `mbr_write.py` lines 45–46: the raw-code → pascal conversion performed at
the head of `add_pressure_array`.  `p - 2**16*(p >= 2**13)` followed by
`p*100*2.5/2**13`, elementwise on one value (numpy booleans count as 0/1). -/
def convertRaw (r : ℚ) : ℚ :=
  (r - 2 ^ 16 * (if 2 ^ 13 ≤ r then 1 else 0)) * 100 * (5 / 2) / 2 ^ 13

/-- The conversion contract exactly as the specification words it (§4.1):
`signed = raw - 2^16 if raw >= 2^13 else raw`, `pressure = signed*100*2.5/2^13`. -/
def convertSpec (r : ℚ) : ℚ :=
  (if 2 ^ 13 ≤ r then r - 2 ^ 16 else r) * 100 * (5 / 2) / 2 ^ 13

/-- `mbr_write.py` lines 16–32, `create_pressure_dataset`: opens the file in
mode `'w'` — which truncates the file if it already exists — and creates an
empty `pressure_series` dataset.  It never fails on an existing name. -/
def create_pressure_dataset (store : Store) (h5_filename : List Char) : Store :=
  fun n => if n = h5_filename then some [] else store n

/-- `mbr_write.py` lines 34–64, `add_pressure_array`.  Converts the raw codes
(lines 45–46), stacks the columns (line 47; numpy raises `ValueError` when the
two columns differ in length), returns early when the stacked array is empty
(lines 48–50, before the file is ever opened), otherwise opens the file in
mode `'a'` and writes the rows at the tail of the dataset (lines 52–63;
a missing dataset raises `KeyError`).  The returned `Bool` records whether the
`with h5py.File(...)` block was entered, i.e. whether the file was opened. -/
def add_pressure_array (store : Store) (h5_filename : List Char)
    (time p : List ℚ) : Except String (Store × Bool) :=
  let p2 := p.map convertRaw
  if time.length ≠ p2.length then
    Except.error "ValueError: column_stack: input lengths differ"
  else
    let data_array := time.zip p2
    if data_array.length = 0 then
      Except.ok (store, false)
    else
      match store h5_filename with
      | none => Except.error "KeyError: pressure_series"
      | some rows =>
          Except.ok (fun n => if n = h5_filename then some (rows ++ data_array)
                              else store n, true)

/-- `mbr_plot_h5.py` lines 42–49, `load_pressure_data`: reads the dataset back
and splits it into its two columns. -/
def load_pressure_data (store : Store) (h5_filename : List Char) :
    Except String (List ℚ × List ℚ) :=
  match store h5_filename with
  | none => Except.error "KeyError: pressure_series"
  | some rows => Except.ok (rows.map Prod.fst, rows.map Prod.snd)

/-- `scipy.signal.decimate(..., zero_phase=True)` applies a length-preserving
zero-phase filter and then keeps every `q`-th element starting at index 0;
`np.arange(0, len, q)` indexing does the same striding.  `strideAux q l k`
keeps the elements of `l` whose index is `≡ 0 (mod q)`, with `k` steps still
to wait before the next kept element. -/
def strideAux {α : Type} (q : ℕ) : List α → ℕ → List α
  | [], _ => []
  | x :: xs, 0 => x :: strideAux q xs (q - 1)
  | _ :: xs, k + 1 => strideAux q xs k

/-- Every `q`-th element of `l`, starting at index 0. -/
def stride {α : Type} (l : List α) (q : ℕ) : List α := strideAux q l 0

/-- `mbr_plot_h5.py` lines 11–40, `decimate_signal`.  The zero-phase low-pass
filter inside `scipy.signal.decimate` is abstracted as a parameter `filt`
(the claims only use that it preserves length); everything else — the `q <= 1`
early return, the striding, and the truncate-the-longer-sequence repair —
follows the source line by line. -/
def decimate_signal (filt : List ℚ → List ℚ) (timestamps pressures : List ℚ)
    (q : ℤ) : List ℚ × List ℚ :=
  if q ≤ 1 then (timestamps, pressures)
  else
    let dec_pressures := stride (filt pressures) q.toNat
    let dec_timestamps := stride timestamps q.toNat
    if dec_pressures.length < dec_timestamps.length then
      (dec_timestamps.take dec_pressures.length, dec_pressures)
    else if dec_timestamps.length < dec_pressures.length then
      (dec_timestamps, dec_pressures.take dec_timestamps.length)
    else
      (dec_timestamps, dec_pressures)

/-- Two zero-padded decimal digit characters, as produced for each field of
`strftime('%y%m%d%H%M')` (each field of that format is in `[0, 100)`). -/
def twoDigits (n : ℤ) : List Char :=
  [Char.ofNat (48 + (n.toNat / 10) % 10), Char.ofNat (48 + n.toNat % 10)]

/-- Gregorian civil date from days since the Unix epoch (the standard
days-to-civil algorithm, as implemented inside Python's `datetime`).  All
divisions are Euclidean, which coincides with the reference algorithm on the
epoch-nonnegative instants used anywhere in this development. -/
def civilFromDays (z0 : ℤ) : ℤ × ℤ × ℤ :=
  let z := z0 + 719468
  let era := (if 0 ≤ z then z else z - 146096) / 146097
  let doe := z - era * 146097
  let yoe := (doe - doe / 1460 + doe / 36524 - doe / 146096) / 365
  let y := yoe + era * 400
  let doy := doe - (365 * yoe + yoe / 4 - yoe / 100)
  let mp := (5 * doy + 2) / 153
  let d := doy - (153 * mp + 2) / 5 + 1
  let m := mp + (if mp < 10 then 3 else (-9))
  (y + (if m ≤ 2 then 1 else 0), m, d)

/-- `datetime.datetime.fromtimestamp(t).strftime('%y%m%d%H%M')`-style Bucket
Label: the ten characters `YYMMDDHHmm` for the instant `t` (seconds since the
epoch, local time modelled at UTC). -/
def minuteLabel (t : ℚ) : List Char :=
  let total : ℤ := ⌊t⌋
  let days := total / 86400
  let secs := total % 86400
  let c := civilFromDays days
  twoDigits (c.1 % 100) ++ twoDigits c.2.1 ++ twoDigits c.2.2 ++
    twoDigits (secs / 3600) ++ twoDigits (secs % 3600 / 60)

/-- Python's `label[:-4]`: all characters of the label but the last four.
On a `YYMMDDHHmm` label this keeps the `YYMMDD` date part. -/
def datePart (label : List Char) : List Char :=
  label.take (label.length - 4)

/-- What the loop appends to the log at each iteration. -/
inductive Event : Type
  | rotation : Event
  | flush : Event
deriving DecidableEq

/-- The mutable state of the `__main__` acquisition loop of `mbr_write.py`
(lines 84–128): the two buffer arrays `time` and `p`, the label `tmpdate` of
the currently open segment, the current `filename`, the scheduler's
`next_tick`, and the HDF5 medium.  `log` records the flush/rotation events,
for counting them. -/
structure LoopState : Type where
  time : List ℚ
  p : List ℚ
  tmpdate : List Char
  filename : List Char
  next_tick : ℚ
  store : Store
  log : List Event

/-- `interval_ms = 50`; `interval_s = interval_ms / 1000.0` (lines 91–92). -/
def interval_s : ℚ := 50 / 1000

/-- `pref='data/mbZai_'` (line 86). -/
def pref : List Char := "data/mbZai_".toList

/-- `filename = pref+tmpdate+'.h5'` (lines 88 and 118). -/
def mkFilename (label : List Char) : List Char := pref ++ label ++ ".h5".toList

/-- Line 96: `next_tick = ((int(start_time * 1000) // interval_ms) + 1) *
interval_ms / 1000.0` (for the nonnegative clock readings `time.time()`
returns, `int` truncation and `//` are both the floor). -/
def firstTick (start_time : ℚ) : ℚ :=
  (((⌊start_time * 1000⌋ / 50 + 1) * 50 : ℤ) : ℚ) / 1000

/-- Lines 100–102: the loop sleeps for `next_tick - now` only when that is
positive; otherwise it proceeds immediately.  Returns the time slept. -/
def sleepDuration (next_tick now : ℚ) : ℚ :=
  if 0 < next_tick - now then next_tick - now else 0

/-- The flush as the loop performs it (lines 112–114 and 124–126):
`add_pressure_array` runs in a spawned `Process` that is immediately joined,
so an exception raised inside it is confined to the child process and leaves
the parent's state (and the medium) unchanged. -/
def flushStore (store : Store) (h5_filename : List Char) (time p : List ℚ) :
    Store :=
  match add_pressure_array store h5_filename time p with
  | Except.ok (s, _) => s
  | Except.error _ => store

/-- One iteration of the `while True` loop (lines 98–128), given the sample
`(t0, p0)` returned by `read_lcard` at this tick: append the sample to the
buffers (104–105), advance `next_tick` (107), compute the label of the new
`next_tick` (109) and rotate when its `[:-4]` date part differs from
`tmpdate[:-4]` (110–121); otherwise flush without rotation when the buffer
has reached `600*20` samples (123–128). -/
def step (s : LoopState) (sample : ℚ × ℚ) : LoopState :=
  let time := s.time ++ [sample.1]
  let p := s.p ++ [sample.2]
  let next_tick := s.next_tick + interval_s
  let timestamp := minuteLabel next_tick
  if datePart timestamp ≠ datePart s.tmpdate then
    let store := flushStore s.store s.filename time p
    let filename := mkFilename timestamp
    { time := [], p := [], tmpdate := timestamp, filename := filename,
      next_tick := next_tick,
      store := create_pressure_dataset store filename,
      log := s.log ++ [Event.rotation] }
  else if time.length = 600 * 20 then
    { time := [], p := [], tmpdate := s.tmpdate, filename := s.filename,
      next_tick := next_tick,
      store := flushStore s.store s.filename time p,
      log := s.log ++ [Event.flush] }
  else
    { time := time, p := p, tmpdate := s.tmpdate, filename := s.filename,
      next_tick := next_tick, store := s.store, log := s.log }

/-- Run the loop over a list of samples (one per tick). -/
def run (s : LoopState) (samples : List (ℚ × ℚ)) : LoopState :=
  samples.foldl step s

/-- The state right before the loop body first runs (lines 84–96): empty
buffers, `tmpdate` the label of the start instant, a freshly created file
named after it, and `next_tick` the first aligned tick. -/
def init (start_time : ℚ) : LoopState :=
  { time := [], p := [],
    tmpdate := minuteLabel start_time,
    filename := mkFilename (minuteLabel start_time),
    next_tick := firstTick start_time,
    store := create_pressure_dataset (fun _ => none)
      (mkFilename (minuteLabel start_time)),
    log := [] }

/-- "No bucket-boundary crossing occurs": at each tick of the run, the date
part of the label of the new `next_tick` agrees with the date part of the
current `tmpdate`, so the rotation branch is never taken. -/
def NoCrossing : LoopState → List (ℚ × ℚ) → Prop
  | _, [] => True
  | s, x :: xs =>
      datePart (minuteLabel (s.next_tick + interval_s)) = datePart s.tmpdate ∧
        NoCrossing (step s x) xs

/-! ## Claim C5: the unit conversion -/

/-- C5: for every raw code `r ∈ [0, 2^16)` the conversion applied by
`add_pressure_array` (lines 45–46) equals the spec's formula
`signed = raw - 2^16 if raw >= 2^13 else raw; pressure = signed*100*2.5/2^13`
(it is a pure function of `r`, hence deterministic), codes `< 2^13` map to
non-negative scaled values and codes `≥ 2^13` map to negative scaled values. -/
theorem claim5_conversion (r : ℕ) (hr : r < 2 ^ 16) :
    convertRaw r = convertSpec r ∧
    (r < 2 ^ 13 → 0 ≤ convertRaw r) ∧
    (2 ^ 13 ≤ r → convertRaw r < 0) := by
  refine ⟨?_, ?_, ?_⟩
  · unfold convertRaw convertSpec
    split <;> ring
  · intro h
    have hq : ¬ (2 ^ 13 : ℚ) ≤ (r : ℕ) := by exact_mod_cast Nat.not_le.mpr h
    unfold convertRaw
    rw [if_neg hq]
    have h0 : (0 : ℚ) ≤ ((r : ℕ) : ℚ) := Nat.cast_nonneg r
    nlinarith
  · intro h
    have hq : (2 ^ 13 : ℚ) ≤ (r : ℕ) := by exact_mod_cast h
    have hub : ((r : ℕ) : ℚ) < 2 ^ 16 := by exact_mod_cast hr
    unfold convertRaw
    rw [if_pos hq]
    have hneg : ((r : ℕ) : ℚ) - 2 ^ 16 * 1 < 0 := by linarith
    nlinarith

/-- Witness for C5 at the raw code 100. -/
theorem claim5_witness :
    convertRaw 100 = convertSpec 100 ∧
    ((100 : ℕ) < 2 ^ 13 → 0 ≤ convertRaw 100) ∧
    (2 ^ 13 ≤ (100 : ℕ) → convertRaw 100 < 0) := by
  have h := claim5_conversion 100 (by norm_num)
  exact_mod_cast h

/-! ## Claim C6: decimation with factor 1 is the identity -/

/-- C6: for every timestamp array and pressure array, `decimate_signal` with
`q = 1` returns its input exactly unchanged (`mbr_plot_h5.py` lines 24–25),
whatever low-pass filter the library would use for larger factors. -/
theorem claim6_decimate_identity (filt : List ℚ → List ℚ) (ts p : List ℚ) :
    decimate_signal filt ts p 1 = (ts, p) := by
  simp [decimate_signal]

/-! ## Claim C10: appending empty arrays is a no-op that never opens the file -/

/-- C10: calling `add_pressure_array` with empty timestamp and pressure arrays
returns before the `with h5py.File(...)` block (the `Bool` component `false`
records that the file was never opened): the medium is returned unchanged —
so every segment's contents and committed length are unchanged — and no
exception is raised (the result is `Except.ok`). -/
theorem claim10_empty_append (store : Store) (h5_filename : List Char) :
    add_pressure_array store h5_filename [] [] = Except.ok (store, false) := rfl

/-! ## Claim C3: `create` on an existing name -/

/-- A medium on which the segment named `['a']` already exists, with one row. -/
def c3Store : Store := fun n => if n = ['a'] then some [(1, 2)] else none

/-- C3 counterexample: the claim says `create` fails (and in particular does
not succeed and does not destroy the existing contents) when the name already
exists.  In the code, `create_pressure_dataset` opens the file in mode `'w'`:
on the medium `c3Store`, where `['a']` already holds one row, it succeeds and
replaces those contents with an empty dataset. -/
theorem claim3_counterexample :
    c3Store ['a'] = some [(1, 2)] ∧
    create_pressure_dataset c3Store ['a'] ['a'] = some [] := by
  constructor <;> simp [c3Store, create_pressure_dataset]

/-- C3 amended: `create` never fails on an existing name; it truncates —
after `create_pressure_dataset store name` the segment `name` exists and is
empty (destroying any previous contents), and every other name is untouched. -/
theorem claim3_create_truncates (store : Store) (name n : List Char)
    (hn : n ≠ name) :
    create_pressure_dataset store name name = some [] ∧
    create_pressure_dataset store name n = store n := by
  constructor <;> simp [create_pressure_dataset, hn]

/-- Witness for the amended C3 on `c3Store`. -/
theorem claim3_witness :
    create_pressure_dataset c3Store ['a'] ['a'] = some [] ∧
    create_pressure_dataset c3Store ['a'] ['b'] = c3Store ['b'] :=
  claim3_create_truncates c3Store ['a'] ['b'] (by decide)

/-! ## Claim C7: decimation lengths and truncation -/

theorem strideAux_length {α : Type} (q : ℕ) (hq : 1 ≤ q) (l : List α) :
    ∀ k : ℕ, (strideAux q l k).length = (l.length - k + q - 1) / q := by
  induction l with
  | nil =>
      intro k
      simp only [strideAux, List.length_nil]
      exact (Nat.div_eq_of_lt (by omega)).symm
  | cons x xs ih =>
      intro k
      cases k with
      | zero =>
          simp only [strideAux, List.length_cons]
          rw [ih (q - 1)]
          rcases le_or_lt (q - 1) xs.length with h | h
          · have h1 : xs.length - (q - 1) + q - 1 = xs.length := by omega
            have h2 : xs.length + 1 - 0 + q - 1 = xs.length + q := by omega
            rw [h1, h2, Nat.add_div_right _ (by omega)]
          · have h1 : xs.length - (q - 1) = 0 := by omega
            rw [h1, Nat.div_eq_of_lt (by omega)]
            have h3 : xs.length + 1 - 0 + q - 1 = xs.length + q := by omega
            rw [h3, Nat.add_div_right _ (by omega), Nat.div_eq_of_lt (by omega)]
      | succ k' =>
          simp only [strideAux, List.length_cons]
          rw [ih k']
          congr 1
          omega

/-- Striding keeps `⌈n/q⌉ = (n + q - 1) / q` of `n` elements. -/
theorem stride_length {α : Type} (l : List α) (q : ℕ) (hq : 1 ≤ q) :
    (stride l q).length = (l.length + q - 1) / q := by
  have h := strideAux_length q hq l 0
  simpa [stride] using h

/-- For `q > 1`, `decimate_signal` is: stride the filtered pressures and the
timestamps, then truncate the longer of the two to the length of the shorter
(`mbr_plot_h5.py` lines 28–40). -/
theorem decimate_signal_eq_of_one_lt (filt : List ℚ → List ℚ)
    (ts p : List ℚ) (q : ℤ) (hq : 1 < q) :
    decimate_signal filt ts p q =
      ((stride ts q.toNat).take
          (min (stride ts q.toNat).length (stride (filt p) q.toNat).length),
       (stride (filt p) q.toNat).take
          (min (stride ts q.toNat).length (stride (filt p) q.toNat).length)) := by
  rw [decimate_signal, if_neg (by omega)]
  by_cases h1 : (stride (filt p) q.toNat).length < (stride ts q.toNat).length
  · rw [if_pos h1]
    have hm : min (stride ts q.toNat).length (stride (filt p) q.toNat).length =
        (stride (filt p) q.toNat).length := by omega
    rw [hm, List.take_length]
  · rw [if_neg h1]
    by_cases h2 : (stride ts q.toNat).length < (stride (filt p) q.toNat).length
    · rw [if_pos h2]
      have hm : min (stride ts q.toNat).length (stride (filt p) q.toNat).length =
          (stride ts q.toNat).length := by omega
      rw [hm, List.take_length]
    · rw [if_neg h2]
      have hm : min (stride ts q.toNat).length (stride (filt p) q.toNat).length =
          (stride ts q.toNat).length := by omega
      have he : (stride (filt p) q.toNat).length = (stride ts q.toNat).length := by
        omega
      rw [hm, List.take_length, ← he, List.take_length]

/-- C7: for every decimation factor `q > 1`, every length-preserving zero-phase
filter, and every input series of length `L` (both columns of length `L`), the
two output arrays of `decimate_signal` have equal length, that length is
`⌊L/q⌋` within an off-by-one tolerance, and — for arbitrary inputs — a length
mismatch between the strided filtered pressures and the strided timestamps is
resolved by truncating the longer to the shorter, never by padding. -/
theorem claim7_decimate_lengths (filt : List ℚ → List ℚ)
    (hfilt : ∀ l : List ℚ, (filt l).length = l.length)
    (ts p : List ℚ) (q : ℤ) (hq : 1 < q) (hL : ts.length = p.length) :
    (decimate_signal filt ts p q).1.length = (decimate_signal filt ts p q).2.length ∧
    ts.length / q.toNat ≤ (decimate_signal filt ts p q).1.length ∧
    (decimate_signal filt ts p q).1.length ≤ ts.length / q.toNat + 1 ∧
    (∀ ts' p' : List ℚ,
      decimate_signal filt ts' p' q =
        ((stride ts' q.toNat).take
            (min (stride ts' q.toNat).length (stride (filt p') q.toNat).length),
         (stride (filt p') q.toNat).take
            (min (stride ts' q.toNat).length (stride (filt p') q.toNat).length))) := by
  have hn : 1 ≤ q.toNat := by omega
  have hts : (stride ts q.toNat).length = (ts.length + q.toNat - 1) / q.toNat :=
    stride_length ts q.toNat hn
  have hps : (stride (filt p) q.toNat).length = (ts.length + q.toNat - 1) / q.toNat := by
    rw [stride_length (filt p) q.toNat hn, hfilt p, hL]
  have heq : decimate_signal filt ts p q =
      ((stride ts q.toNat).take ((ts.length + q.toNat - 1) / q.toNat),
       (stride (filt p) q.toNat).take ((ts.length + q.toNat - 1) / q.toNat)) := by
    rw [decimate_signal_eq_of_one_lt filt ts p q hq, hts, hps, min_self]
  refine ⟨?_, ?_, ?_, fun ts' p' => decimate_signal_eq_of_one_lt filt ts' p' q hq⟩
  · rw [heq]
    simp [List.length_take, hts, hps]
  · rw [heq]
    simp only [List.length_take, hts]
    have h1 : ts.length / q.toNat ≤ (ts.length + q.toNat - 1) / q.toNat :=
      Nat.div_le_div_right (by omega)
    omega
  · rw [heq]
    simp only [List.length_take, hts]
    have h2 : (ts.length + q.toNat - 1) / q.toNat ≤ (ts.length + q.toNat) / q.toNat :=
      Nat.div_le_div_right (by omega)
    rw [Nat.add_div_right _ (by omega)] at h2
    omega

/-- Witness for C7: the identity filter, `ts = [1,2,3,4,5]`, `p = [5,4,3,2,1]`,
`q = 2`. -/
theorem claim7_witness :
    (decimate_signal id [1, 2, 3, 4, 5] [5, 4, 3, 2, 1] 2).1.length =
      (decimate_signal id [1, 2, 3, 4, 5] [5, 4, 3, 2, 1] 2).2.length ∧
    ([1, 2, 3, 4, 5] : List ℚ).length / (2 : ℤ).toNat ≤
      (decimate_signal id [1, 2, 3, 4, 5] [5, 4, 3, 2, 1] 2).1.length ∧
    (decimate_signal id [1, 2, 3, 4, 5] [5, 4, 3, 2, 1] 2).1.length ≤
      ([1, 2, 3, 4, 5] : List ℚ).length / (2 : ℤ).toNat + 1 ∧
    (∀ ts' p' : List ℚ,
      decimate_signal id ts' p' 2 =
        ((stride ts' (2 : ℤ).toNat).take
            (min (stride ts' (2 : ℤ).toNat).length
              (stride (id p') (2 : ℤ).toNat).length),
         (stride (id p') (2 : ℤ).toNat).take
            (min (stride ts' (2 : ℤ).toNat).length
              (stride (id p') (2 : ℤ).toNat).length))) :=
  claim7_decimate_lengths id (fun _ => rfl) [1, 2, 3, 4, 5] [5, 4, 3, 2, 1] 2
    (by norm_num) rfl

/-! ## Claim C8: append grows the tail; round-trip -/

/-- A medium on which the segment `['a']` exists and is fresh (empty). -/
def c8Store : Store := fun n => if n = ['a'] then some [] else none

/-- C8 counterexample: appending the known pair `(0, 1)` to the fresh segment
`['a']` and reading it back yields the pressure `125/4096` (the unit
conversion of `1`), not the appended value `1` — off by a factor of ≈33, far
outside floating-point tolerance — because `add_pressure_array` applies the
raw-code conversion to whatever it is given before writing. -/
theorem claim8_counterexample :
    (add_pressure_array c8Store ['a'] [0] [1]).map
        (fun r => load_pressure_data r.1 ['a']) =
      Except.ok (Except.ok ([0], [125 / 4096])) ∧
    (125 / 4096 : ℚ) ≠ 1 := by
  constructor
  · simp only [add_pressure_array, c8Store, load_pressure_data]
    norm_num [convertRaw, Except.map]
  · norm_num

/-- C8 amended: for every segment `name` holding `rows` and every equal-length
batch of `N = time.length` samples (nonempty; the empty case never opens the
file, see `add_pressure_array`), the append succeeds and grows the segment by
exactly `N` rows written at the tail in arrival order — the rows being the
(timestamp, `convertRaw` pressure) pairs — every other segment is untouched,
and reading a fresh segment back yields the identical timestamp sequence in
identical order paired with the unit-converted pressure values. -/
theorem claim8_append_tail (store : Store) (name : List Char)
    (time p : List ℚ) (rows : List Row)
    (hex : store name = some rows) (hlen : time.length = p.length)
    (hne : time ≠ []) :
    add_pressure_array store name time p =
      Except.ok
        (fun n => if n = name then some (rows ++ time.zip (p.map convertRaw))
                  else store n, true) ∧
    (rows ++ time.zip (p.map convertRaw)).length = rows.length + time.length ∧
    (rows = [] →
      load_pressure_data
        (fun n => if n = name then some (rows ++ time.zip (p.map convertRaw))
                  else store n) name =
        Except.ok (time, p.map convertRaw)) := by
  have hlen2 : time.length = (p.map convertRaw).length := by
    rw [List.length_map]; exact hlen
  have hzlen : (time.zip (p.map convertRaw)).length = time.length := by
    rw [List.length_zip]; omega
  refine ⟨?_, ?_, ?_⟩
  · rw [add_pressure_array, if_neg (by omega)]
    have hpos : ¬ (time.zip (p.map convertRaw)).length = 0 := by
      rw [hzlen]
      intro h
      exact hne (List.length_eq_zero.mp h)
    simp only [if_neg hpos, hex]
  · rw [List.length_append, hzlen]
  · intro hrows
    subst hrows
    rw [load_pressure_data]
    simp only [eq_self_iff_true, if_true, List.nil_append]
    rw [List.map_fst_zip _ _ (le_of_eq hlen2),
      List.map_snd_zip _ _ (le_of_eq hlen2.symm)]

/-- Witness for the amended C8: appending `[(3, 2), (4, 8192)]` to the fresh
segment `['a']`. -/
theorem claim8_witness :
    add_pressure_array c8Store ['a'] [3, 4] [2, 8192] =
      Except.ok
        (fun n => if n = ['a'] then
            some (([] : List Row) ++ [3, 4].zip ([2, 8192].map convertRaw))
          else c8Store n, true) ∧
    (([] : List Row) ++ [3, 4].zip ([2, 8192].map convertRaw)).length =
      ([] : List Row).length + [3, 4].length ∧
    (([] : List Row) = [] →
      load_pressure_data
        (fun n => if n = ['a'] then
            some (([] : List Row) ++ [3, 4].zip ([2, 8192].map convertRaw))
          else c8Store n) ['a'] =
        Except.ok ([3, 4], [2, 8192].map convertRaw)) :=
  claim8_append_tail c8Store ['a'] [3, 4] [2, 8192] [] (by simp [c8Store]) rfl
    (by simp)

/-! ## Step lemmas for the acquisition loop -/

/-- The rotation branch (lines 110–121). -/
theorem step_eq_rotation (s : LoopState) (x : ℚ × ℚ)
    (h : datePart (minuteLabel (s.next_tick + interval_s)) ≠ datePart s.tmpdate) :
    step s x =
      { time := [], p := [],
        tmpdate := minuteLabel (s.next_tick + interval_s),
        filename := mkFilename (minuteLabel (s.next_tick + interval_s)),
        next_tick := s.next_tick + interval_s,
        store := create_pressure_dataset
          (flushStore s.store s.filename (s.time ++ [x.1]) (s.p ++ [x.2]))
          (mkFilename (minuteLabel (s.next_tick + interval_s))),
        log := s.log ++ [Event.rotation] } := by
  simp only [step]
  rw [if_pos h]

/-- The capacity-flush branch (lines 123–128). -/
theorem step_eq_flush (s : LoopState) (x : ℚ × ℚ)
    (h1 : datePart (minuteLabel (s.next_tick + interval_s)) = datePart s.tmpdate)
    (h2 : (s.time ++ [x.1]).length = 600 * 20) :
    step s x =
      { time := [], p := [], tmpdate := s.tmpdate, filename := s.filename,
        next_tick := s.next_tick + interval_s,
        store := flushStore s.store s.filename (s.time ++ [x.1]) (s.p ++ [x.2]),
        log := s.log ++ [Event.flush] } := by
  simp only [step]
  rw [if_neg (by simp [h1]), if_pos h2]

/-- The plain branch: sample appended, nothing else happens. -/
theorem step_eq_plain (s : LoopState) (x : ℚ × ℚ)
    (h1 : datePart (minuteLabel (s.next_tick + interval_s)) = datePart s.tmpdate)
    (h2 : (s.time ++ [x.1]).length ≠ 600 * 20) :
    step s x =
      { time := s.time ++ [x.1], p := s.p ++ [x.2], tmpdate := s.tmpdate,
        filename := s.filename, next_tick := s.next_tick + interval_s,
        store := s.store, log := s.log } := by
  simp only [step]
  rw [if_neg (by simp [h1]), if_neg h2]

/-- Whatever branch is taken, the next-tick target advances by exactly one
interval (line 107 runs unconditionally). -/
theorem step_next_tick (s : LoopState) (x : ℚ × ℚ) :
    (step s x).next_tick = s.next_tick + interval_s := by
  simp only [step]
  split
  · rfl
  · split <;> rfl

theorem run_append (s : LoopState) (samples : List (ℚ × ℚ)) (x : ℚ × ℚ) :
    run s (samples ++ [x]) = step (run s samples) x := by
  simp [run, List.foldl_append]

/-! ## Claim C9: the drift-corrected scheduler -/

/-- C9: (a) `firstTick` is strictly after the start time, lies on the 50 ms
grid, and is at or before every grid instant strictly after the start time —
it is the smallest such instant; (b) each loop iteration advances the
next-tick target by exactly one interval, `next_tick + interval_s` (never
"now + interval"), so a target on the grid stays on the grid; (c) when the
tick target is already in the past the loop does not sleep. -/
theorem claim9_scheduler (t : ℚ) (_ht : 0 ≤ t) (k : ℤ) (hk : t < k * interval_s)
    (s : LoopState) (x : ℚ × ℚ) (next_tick now : ℚ) (hpast : next_tick ≤ now) :
    t < firstTick t ∧
    (∃ j : ℤ, firstTick t = j * interval_s) ∧
    firstTick t ≤ k * interval_s ∧
    (step s x).next_tick = s.next_tick + interval_s ∧
    sleepDuration next_tick now = 0 := by
  have hdm : 50 * (⌊t * 1000⌋ / 50) + ⌊t * 1000⌋ % 50 = ⌊t * 1000⌋ :=
    Int.ediv_add_emod (⌊t * 1000⌋) 50
  have hr0 : 0 ≤ ⌊t * 1000⌋ % 50 := Int.emod_nonneg _ (by norm_num)
  have hr50 : ⌊t * 1000⌋ % 50 < 50 := Int.emod_lt_of_pos _ (by norm_num)
  have hfl : ((⌊t * 1000⌋ : ℤ) : ℚ) ≤ t * 1000 := Int.floor_le _
  have hlt : t * 1000 < ((⌊t * 1000⌋ : ℤ) : ℚ) + 1 := Int.lt_floor_add_one _
  have hdmq : 50 * ((⌊t * 1000⌋ / 50 : ℤ) : ℚ) + ((⌊t * 1000⌋ % 50 : ℤ) : ℚ) =
      ((⌊t * 1000⌋ : ℤ) : ℚ) := by exact_mod_cast hdm
  have hr0q : (0 : ℚ) ≤ ((⌊t * 1000⌋ % 50 : ℤ) : ℚ) := by exact_mod_cast hr0
  have hr50q : ((⌊t * 1000⌋ % 50 : ℤ) : ℚ) < 50 := by exact_mod_cast hr50
  have hr49q : ((⌊t * 1000⌋ % 50 : ℤ) : ℚ) ≤ 49 := by
    have : ⌊t * 1000⌋ % 50 ≤ 49 := by omega
    exact_mod_cast this
  refine ⟨?_, ⟨⌊t * 1000⌋ / 50 + 1, ?_⟩, ?_, step_next_tick s x, ?_⟩
  · rw [firstTick]
    push_cast
    linarith
  · rw [firstTick, interval_s]
    push_cast
    ring
  · rw [firstTick, interval_s]
    have hmk : ⌊t * 1000⌋ / 50 < k := by
      by_contra hle
      push_neg at hle
      have hkq : ((k : ℤ) : ℚ) ≤ ((⌊t * 1000⌋ / 50 : ℤ) : ℚ) := by exact_mod_cast hle
      rw [interval_s] at hk
      linarith
    have hmkq : ((⌊t * 1000⌋ / 50 : ℤ) : ℚ) + 1 ≤ ((k : ℤ) : ℚ) := by
      exact_mod_cast hmk
    push_cast
    linarith
  · rw [sleepDuration, if_neg (by linarith)]

/-- A throwaway concrete loop state, for instantiating universally quantified
statements. -/
def anyState : LoopState :=
  { time := [], p := [], tmpdate := [], filename := [], next_tick := 0,
    store := fun _ => none, log := [] }

/-- Witness for C9 at `t = 3/1000`, `k = 1`, `next_tick = 0`, `now = 1`. -/
theorem claim9_witness :
    (3 / 1000 : ℚ) < firstTick (3 / 1000) ∧
    (∃ j : ℤ, firstTick (3 / 1000) = j * interval_s) ∧
    firstTick (3 / 1000) ≤ (1 : ℤ) * interval_s ∧
    (step anyState (0, 0)).next_tick = anyState.next_tick + interval_s ∧
    sleepDuration 0 1 = 0 :=
  claim9_scheduler (3 / 1000) (by norm_num) 1 (by rw [interval_s]; norm_num)
    anyState (0, 0) 0 1 (by norm_num)

/-! ## Label evaluation helpers -/

/-- `minuteLabel` at an integer instant, with the floor discharged. -/
theorem minuteLabel_int (z : ℤ) :
    minuteLabel ((z : ℤ) : ℚ) =
      twoDigits ((civilFromDays (z / 86400)).1 % 100) ++
      twoDigits (civilFromDays (z / 86400)).2.1 ++
      twoDigits (civilFromDays (z / 86400)).2.2 ++
      twoDigits (z % 86400 / 3600) ++
      twoDigits (z % 86400 % 3600 / 60) := by
  simp only [minuteLabel, Int.floor_intCast]

/-- `label[:-4]` of a ten-character label is its first six characters. -/
theorem datePart_of_label (a b c d e : ℤ) :
    datePart (twoDigits a ++ twoDigits b ++ twoDigits c ++ twoDigits d ++
        twoDigits e) =
      twoDigits a ++ twoDigits b ++ twoDigits c := by
  simp [datePart, twoDigits]

/-- The date part of a Bucket Label depends only on the civil date. -/
theorem datePart_minuteLabel (t : ℚ) :
    datePart (minuteLabel t) =
      twoDigits ((civilFromDays (⌊t⌋ / 86400)).1 % 100) ++
      twoDigits (civilFromDays (⌊t⌋ / 86400)).2.1 ++
      twoDigits (civilFromDays (⌊t⌋ / 86400)).2.2 := by
  simp only [minuteLabel]
  exact datePart_of_label _ _ _ _ _

/-- Every instant of the epoch day 1970-01-01 has date part `"700101"`. -/
theorem datePart_minuteLabel_day0 (t : ℚ) (h0 : 0 ≤ t) (h1 : t < 86400) :
    datePart (minuteLabel t) = "700101".toList := by
  have hf0 : 0 ≤ ⌊t⌋ := Int.floor_nonneg.mpr h0
  have hf1 : ⌊t⌋ < 86400 := Int.floor_lt.mpr (by exact_mod_cast h1)
  have hd : ⌊t⌋ / 86400 = 0 := Int.ediv_eq_zero_of_lt hf0 hf1
  rw [datePart_minuteLabel, hd]
  decide

/-! ## `NoCrossing` and frame lemmas for the loop -/

theorem noCrossing_nil (s : LoopState) : NoCrossing s [] := trivial

theorem noCrossing_cons {s : LoopState} {x : ℚ × ℚ} {xs : List (ℚ × ℚ)} :
    NoCrossing s (x :: xs) ↔
      (datePart (minuteLabel (s.next_tick + interval_s)) = datePart s.tmpdate ∧
        NoCrossing (step s x) xs) :=
  Iff.rfl

/-- In a non-crossing iteration the segment label is unchanged. -/
theorem step_tmpdate_of_eq (s : LoopState) (x : ℚ × ℚ)
    (h1 : datePart (minuteLabel (s.next_tick + interval_s)) = datePart s.tmpdate) :
    (step s x).tmpdate = s.tmpdate := by
  by_cases hf : (s.time ++ [x.1]).length = 600 * 20
  · rw [step_eq_flush s x h1 hf]
  · rw [step_eq_plain s x h1 hf]

/-- `NoCrossing` splits across a concatenation of sample streams. -/
theorem noCrossing_append (ys : List (ℚ × ℚ)) :
    ∀ (s : LoopState) (zs : List (ℚ × ℚ)), NoCrossing s (ys ++ zs) →
      NoCrossing s ys ∧ NoCrossing (run s ys) zs := by
  induction ys with
  | nil => intro s zs h; exact ⟨noCrossing_nil s, h⟩
  | cons y ys ih =>
      intro s zs h
      obtain ⟨heq, h'⟩ := h
      obtain ⟨h1, h2⟩ := ih (step s y) zs h'
      exact ⟨⟨heq, h1⟩, h2⟩

/-- An append whose inputs pass the guards changes the medium only at the
target name. -/
theorem add_pressure_array_frame (store : Store) (name : List Char)
    (time p : List ℚ) (s2 : Store) (b : Bool)
    (h : add_pressure_array store name time p = Except.ok (s2, b))
    (n : List Char) (hn : n ≠ name) : s2 n = store n := by
  simp only [add_pressure_array] at h
  split at h
  · exact absurd h (by simp)
  · split at h
    · injection h with h2
      injection h2 with h3 h4
      subst h3
      rfl
    · split at h
      · exact absurd h (by simp)
      · injection h with h2
        injection h2 with h3 h4
        subst h3
        simp [hn]

/-- The loop's flush changes the medium only at the flushed file name. -/
theorem flushStore_frame (store : Store) (name n : List Char)
    (time p : List ℚ) (hn : n ≠ name) :
    flushStore store name time p n = store n := by
  rw [flushStore]
  cases h : add_pressure_array store name time p with
  | error e => rfl
  | ok r => exact add_pressure_array_frame store name time p r.1 r.2 (by rw [h]) n hn

/-- A successful append: the target grows by the stacked converted rows at the
tail, all other names untouched. -/
theorem add_pressure_array_ok (store : Store) (name : List Char)
    (time p : List ℚ) (rows : List Row)
    (hex : store name = some rows) (hlen : time.length = p.length)
    (hne : time ≠ []) :
    add_pressure_array store name time p =
      Except.ok
        (fun n => if n = name then some (rows ++ time.zip (p.map convertRaw))
                  else store n, true) := by
  have hlen2 : time.length = (p.map convertRaw).length := by
    rw [List.length_map]; exact hlen
  have hzlen : (time.zip (p.map convertRaw)).length = time.length := by
    rw [List.length_zip]; omega
  rw [add_pressure_array, if_neg (by omega)]
  have hpos : ¬ (time.zip (p.map convertRaw)).length = 0 := by
    rw [hzlen]
    intro h
    exact hne (List.length_eq_zero.mp h)
  simp only [if_neg hpos, hex]

/-- The loop's flush, on inputs passing the guards: the flushed file holds the
old rows followed by the stacked converted samples. -/
theorem flushStore_ok (store : Store) (name : List Char) (time p : List ℚ)
    (rows : List Row) (hex : store name = some rows)
    (hlen : time.length = p.length) (hne : time ≠ []) :
    flushStore store name time p =
      fun n => if n = name then some (rows ++ time.zip (p.map convertRaw))
               else store n := by
  rw [flushStore, add_pressure_array_ok store name time p rows hex hlen hne]

/-- Over a non-crossing run the current file and label are unchanged, no other
file is touched, and no rotation event is logged. -/
theorem run_noCrossing_frame (samples : List (ℚ × ℚ)) :
    ∀ s : LoopState, NoCrossing s samples →
      (run s samples).filename = s.filename ∧
      (run s samples).tmpdate = s.tmpdate ∧
      (∀ n, n ≠ s.filename → (run s samples).store n = s.store n) ∧
      ∃ l : List Event, (run s samples).log = s.log ++ l ∧
        Event.rotation ∉ l := by
  induction samples with
  | nil =>
      intro s _
      exact ⟨rfl, rfl, fun n _ => rfl, [], by simp [run], by simp⟩
  | cons x xs ih =>
      intro s hnc
      obtain ⟨heq, hnc'⟩ := hnc
      obtain ⟨hfn, htd, hst, l, hlog, hrot⟩ := ih (step s x) hnc'
      have hrun : run s (x :: xs) = run (step s x) xs := rfl
      by_cases hf : (s.time ++ [x.1]).length = 600 * 20
      · have hstep := step_eq_flush s x heq hf
        refine ⟨by rw [hrun, hfn, hstep], by rw [hrun, htd, hstep], ?_, ?_⟩
        · intro n hn
          rw [hrun, hst n (by rw [hstep]; exact hn), hstep]
          exact flushStore_frame s.store s.filename n _ _ hn
        · refine ⟨Event.flush :: l, ?_, by simpa using hrot⟩
          rw [hrun, hlog, hstep]
          simp
      · have hstep := step_eq_plain s x heq hf
        refine ⟨by rw [hrun, hfn, hstep], by rw [hrun, htd, hstep], ?_, ?_⟩
        · intro n hn
          rw [hrun, hst n (by rw [hstep]; exact hn), hstep]
        · refine ⟨l, ?_, hrot⟩
          rw [hrun, hlog, hstep]

/-! ## Claim C1: rotation on bucket-boundary crossing -/

theorem mkFilename_inj {a b : List Char} (h : mkFilename a = mkFilename b) :
    a = b := by
  rw [mkFilename, mkFilename, List.append_assoc, List.append_assoc,
    List.append_right_inj, List.append_left_inj] at h
  exact h

/-- A loop state one tick before midnight of 1970-01-02, with the segment of
label `"7001010000"` open and empty and one sample about to arrive. -/
def cross1 : LoopState :=
  { time := [], p := [], tmpdate := "7001010000".toList,
    filename := mkFilename ("7001010000".toList),
    next_tick := 86400 - interval_s,
    store := fun n => if n = mkFilename ("7001010000".toList) then some []
                      else none,
    log := [] }

/-- A loop state one tick before the minute boundary at `t = 60` s, with the
segment of label `"7001010000"` open and empty. -/
def cex1 : LoopState :=
  { time := [], p := [], tmpdate := "7001010000".toList,
    filename := mkFilename ("7001010000".toList),
    next_tick := 60 - interval_s,
    store := fun n => if n = mkFilename ("7001010000".toList) then some []
                      else none,
    log := [] }

theorem cex1_label : minuteLabel (cex1.next_tick + interval_s) =
    "7001010001".toList := by
  have e1 : cex1.next_tick + interval_s = ((60 : ℤ) : ℚ) := by
    rw [cex1, interval_s]
    norm_num
  rw [e1, minuteLabel_int]
  decide

theorem cex1_dateeq :
    datePart (minuteLabel (cex1.next_tick + interval_s)) =
      datePart cex1.tmpdate := by
  rw [cex1_label]
  decide

/-- C1 counterexample: in state `cex1` the minute-resolution Bucket Label of
the next tick instant (`"7001010001"`) differs from the label of the open
Segment (`"7001010000"`), yet the step performs no rotation: the current file
and label are kept, no rotation is logged, the buffer is not flushed (the new
sample stays in it), and no Segment named by the new label is created.  The
code only rotates when the `[:-4]` day prefix changes. -/
theorem claim1_counterexample :
    minuteLabel (cex1.next_tick + interval_s) ≠ cex1.tmpdate ∧
    (step cex1 (0, 5)).filename = cex1.filename ∧
    (step cex1 (0, 5)).tmpdate = cex1.tmpdate ∧
    (step cex1 (0, 5)).log = [] ∧
    (step cex1 (0, 5)).time = [0] ∧
    (step cex1 (0, 5)).store
      (mkFilename (minuteLabel (cex1.next_tick + interval_s))) = none := by
  have hplain := step_eq_plain cex1 (0, 5) cex1_dateeq
    (by rw [cex1]; decide)
  refine ⟨?_, ?_, ?_, ?_, ?_, ?_⟩
  · rw [cex1_label]
    decide
  · rw [hplain]
  · rw [hplain]
  · rw [hplain]
    rfl
  · rw [hplain]
    rw [cex1]
    rfl
  · rw [hplain, cex1_label]
    show cex1.store (mkFilename ("7001010001".toList)) = none
    rw [cex1]
    simp only []
    rw [if_neg (by decide)]

/-- C1 amended: whenever the day-resolution prefix (`label[:-4]`, i.e.
`YYMMDD`) of the Bucket Label computed for the next tick instant differs from
that of the currently open Segment's label, exactly one rotation occurs: the
buffer is flushed into the current Segment, the buffer is cleared, a new
Segment named by the new (full, minute-resolution) label is created and made
current, and — for any continuation of the stream in which no further
crossing occurs — all subsequent samples are appended only to the new
Segment, never to the old one (the old file's contents never change again and
no further rotation is logged). -/
theorem claim1_rotation (s : LoopState) (x : ℚ × ℚ) (samples : List (ℚ × ℚ))
    (hfn : s.filename = mkFilename s.tmpdate)
    (hcross : datePart (minuteLabel (s.next_tick + interval_s)) ≠
      datePart s.tmpdate)
    (hnc : NoCrossing (step s x) samples) :
    (step s x).log = s.log ++ [Event.rotation] ∧
    (step s x).tmpdate = minuteLabel (s.next_tick + interval_s) ∧
    (step s x).filename = mkFilename (minuteLabel (s.next_tick + interval_s)) ∧
    (step s x).filename ≠ s.filename ∧
    (step s x).time = [] ∧
    (step s x).p = [] ∧
    (step s x).store (step s x).filename = some [] ∧
    (step s x).store s.filename =
      flushStore s.store s.filename (s.time ++ [x.1]) (s.p ++ [x.2])
        s.filename ∧
    (run (step s x) samples).filename = (step s x).filename ∧
    (run (step s x) samples).store s.filename = (step s x).store s.filename ∧
    ∃ l : List Event, (run (step s x) samples).log = (step s x).log ++ l ∧
      Event.rotation ∉ l := by
  have hstep := step_eq_rotation s x hcross
  have hlabne : minuteLabel (s.next_tick + interval_s) ≠ s.tmpdate := by
    intro h
    exact hcross (by rw [h])
  have hfnne : mkFilename (minuteLabel (s.next_tick + interval_s)) ≠
      s.filename := by
    rw [hfn]
    intro h
    exact hlabne (mkFilename_inj h)
  obtain ⟨hrfn, hrtd, hrst, l, hrlog, hrrot⟩ :=
    run_noCrossing_frame samples (step s x) hnc
  refine ⟨by rw [hstep], by rw [hstep], by rw [hstep], ?_, by rw [hstep],
    by rw [hstep], ?_, ?_, hrfn, ?_, l, hrlog, hrrot⟩
  · rw [hstep]
    exact hfnne
  · rw [hstep]
    simp [create_pressure_dataset]
  · rw [hstep]
    simp only [create_pressure_dataset]
    rw [if_neg (fun h => hfnne h.symm)]
  · exact hrst s.filename (by rw [hstep]; exact fun h => hfnne h.symm)

theorem cross1_label : minuteLabel (cross1.next_tick + interval_s) =
    "7001020000".toList := by
  have e1 : cross1.next_tick + interval_s = ((86400 : ℤ) : ℚ) := by
    rw [cross1, interval_s]
    norm_num
  rw [e1, minuteLabel_int]
  decide

/-- Witness for the amended C1 at the midnight crossing of `cross1`. -/
theorem claim1_witness :
    (step cross1 (0, 7)).log = cross1.log ++ [Event.rotation] ∧
    (step cross1 (0, 7)).tmpdate =
      minuteLabel (cross1.next_tick + interval_s) ∧
    (step cross1 (0, 7)).filename =
      mkFilename (minuteLabel (cross1.next_tick + interval_s)) ∧
    (step cross1 (0, 7)).filename ≠ cross1.filename ∧
    (step cross1 (0, 7)).time = [] ∧
    (step cross1 (0, 7)).p = [] ∧
    (step cross1 (0, 7)).store (step cross1 (0, 7)).filename = some [] ∧
    (step cross1 (0, 7)).store cross1.filename =
      flushStore cross1.store cross1.filename (cross1.time ++ [(0 : ℚ)])
        (cross1.p ++ [(7 : ℚ)]) cross1.filename ∧
    (run (step cross1 (0, 7)) []).filename = (step cross1 (0, 7)).filename ∧
    (run (step cross1 (0, 7)) []).store cross1.filename =
      (step cross1 (0, 7)).store cross1.filename ∧
    ∃ l : List Event, (run (step cross1 (0, 7)) []).log =
      (step cross1 (0, 7)).log ++ l ∧ Event.rotation ∉ l :=
  claim1_rotation cross1 (0, 7) [] rfl
    (by rw [cross1_label]; decide) (noCrossing_nil _)

/-! ## Claim C2: what the Rolling Buffer holds -/

/-- C2 counterexample: the claim says every sample in the buffer has already
been converted to pascals before entering it.  In state `cex1`, after one step
with the raw code `1`, the buffer holds the raw code `1` itself — whose
converted value is `125/4096 ≠ 1` — and the conversion only happens at flush
time, when `add_pressure_array` writes `(0, convertRaw 1)` to the file. -/
theorem claim2_counterexample :
    (step cex1 (0, 1)).p = [1] ∧
    convertRaw 1 ≠ 1 ∧
    flushStore cex1.store cex1.filename [0] [1] cex1.filename =
      some [(0, convertRaw 1)] := by
  have hplain := step_eq_plain cex1 (0, 1) cex1_dateeq (by rw [cex1]; decide)
  refine ⟨?_, ?_, ?_⟩
  · rw [hplain]
    rw [cex1]
    rfl
  · rw [convertRaw]
    norm_num
  · rw [flushStore_ok cex1.store cex1.filename [0] [1] []
      (by rw [cex1]; simp) rfl (by simp)]
    simp

/-- C2 amended: the Rolling Buffer holds the raw codes exactly as the Sample
Source returned them — a non-rotating, non-flushing iteration appends the raw
code unchanged — and the two's-complement unwrap and linear scaling are
applied element-wise at flush time, inside the Store append, just before the
samples are written to the Segment (which therefore stores pascals). -/
theorem claim2_buffer_raw (s : LoopState) (x : ℚ × ℚ)
    (h1 : datePart (minuteLabel (s.next_tick + interval_s)) =
      datePart s.tmpdate)
    (h2 : (s.time ++ [x.1]).length ≠ 600 * 20) :
    (step s x).p = s.p ++ [x.2] ∧
    (step s x).time = s.time ++ [x.1] ∧
    (∀ (store : Store) (name : List Char) (time p : List ℚ) (rows : List Row),
      store name = some rows → time.length = p.length → time ≠ [] →
      flushStore store name time p name =
        some (rows ++ time.zip (p.map convertRaw))) := by
  have hplain := step_eq_plain s x h1 h2
  refine ⟨by rw [hplain], by rw [hplain], ?_⟩
  intro store name time p rows hex hlen hne
  rw [flushStore_ok store name time p rows hex hlen hne]
  simp

/-- Witness for the amended C2 at `cex1` with the raw sample `(0, 1)`. -/
theorem claim2_witness :
    (step cex1 (0, 1)).p = cex1.p ++ [(1 : ℚ)] ∧
    (step cex1 (0, 1)).time = cex1.time ++ [(0 : ℚ)] ∧
    (∀ (store : Store) (name : List Char) (time p : List ℚ) (rows : List Row),
      store name = some rows → time.length = p.length → time ≠ [] →
      flushStore store name time p name =
        some (rows ++ time.zip (p.map convertRaw))) :=
  claim2_buffer_raw cex1 (0, 1) cex1_dateeq (by rw [cex1]; decide)

/-! ## Claim C4: buffer capacity and the flush at `C = 12000` -/

/-- The loop invariant: the two buffer arrays have equal length, strictly
below the capacity `600*20` between iterations. -/
def SizedInv (s : LoopState) : Prop :=
  s.time.length = s.p.length ∧ s.time.length < 600 * 20

theorem step_sizedInv (s : LoopState) (x : ℚ × ℚ) (h : SizedInv s) :
    SizedInv (step s x) := by
  obtain ⟨hl, hlt⟩ := h
  by_cases hc : datePart (minuteLabel (s.next_tick + interval_s)) ≠
      datePart s.tmpdate
  · rw [step_eq_rotation s x hc]
    exact ⟨rfl, by norm_num⟩
  · push_neg at hc
    by_cases hf : (s.time ++ [x.1]).length = 600 * 20
    · rw [step_eq_flush s x hc hf]
      exact ⟨rfl, by norm_num⟩
    · rw [step_eq_plain s x hc hf]
      refine ⟨by simp [hl], ?_⟩
      simp only [List.length_append, List.length_singleton]
      simp only [List.length_append, List.length_singleton] at hf
      omega

theorem run_sizedInv (samples : List (ℚ × ℚ)) :
    ∀ s : LoopState, SizedInv s → SizedInv (run s samples) := by
  induction samples with
  | nil => intro s h; exact h
  | cons x xs ih => intro s h; exact ih (step s x) (step_sizedInv s x h)

/-- A run that neither crosses a bucket boundary nor fills the buffer just
accumulates the samples in the buffers. -/
theorem run_plain_of_small (samples : List (ℚ × ℚ)) :
    ∀ s : LoopState, NoCrossing s samples → s.time.length = s.p.length →
      s.time.length + samples.length < 600 * 20 →
      run s samples =
        { time := s.time ++ samples.map Prod.fst,
          p := s.p ++ samples.map Prod.snd,
          tmpdate := s.tmpdate, filename := s.filename,
          next_tick := s.next_tick + samples.length * interval_s,
          store := s.store, log := s.log } := by
  induction samples with
  | nil =>
      intro s _ _ _
      show s = _
      simp
  | cons x xs ih =>
      intro s hnc hlen hlt
      obtain ⟨heq, hnc'⟩ := hnc
      have hne : (s.time ++ [x.1]).length ≠ 600 * 20 := by
        simp only [List.length_append, List.length_singleton]
        simp only [List.length_cons] at hlt
        omega
      have hplain := step_eq_plain s x heq hne
      have hrun : run s (x :: xs) = run (step s x) xs := rfl
      rw [hrun, ih (step s x) hnc' (by rw [hplain]; simp [hlen])
        (by rw [hplain]; simp only [List.length_append, List.length_singleton]
            simp only [List.length_cons] at hlt
            omega)]
      rw [hplain]
      simp only [List.map_cons, List.length_cons]
      congr 1
      · simp
      · simp
      · push_cast
        ring

/-- Any instant within the first 600.05 seconds of the epoch keeps the date
part at `"700101"`, so a run started there with label date part `"700101"`
never crosses. -/
theorem noCrossing_day0 (samples : List (ℚ × ℚ)) :
    ∀ s : LoopState, datePart s.tmpdate = "700101".toList →
      0 ≤ s.next_tick →
      s.next_tick + samples.length * interval_s < 86400 →
      NoCrossing s samples := by
  induction samples with
  | nil => intro s _ _ _; exact noCrossing_nil s
  | cons x xs ih =>
      intro s hdp h0 hub
      have hxs0 : (0 : ℚ) ≤ xs.length * interval_s := by
        have : (0 : ℚ) ≤ (xs.length : ℚ) := Nat.cast_nonneg _
        rw [interval_s]
        positivity
      have hlen : s.next_tick + interval_s + xs.length * interval_s < 86400 := by
        simp only [List.length_cons] at hub
        push_cast at hub
        linarith

      have hi0 : (0 : ℚ) < interval_s := by rw [interval_s]; norm_num
      have heq : datePart (minuteLabel (s.next_tick + interval_s)) =
          datePart s.tmpdate := by
        rw [datePart_minuteLabel_day0 (s.next_tick + interval_s)
          (by linarith) (by linarith), hdp]
      refine ⟨heq, ih (step s x) ?_ ?_ ?_⟩
      · rw [step_tmpdate_of_eq s x heq, hdp]
      · rw [step_next_tick]
        linarith
      · rw [step_next_tick]
        exact hlen

/-- C4: (a) for every reachable state of the acquisition loop (any run from
the loop's initial state over any sample stream) the Rolling Buffer length
never exceeds `C = 600*20 = 12000`; (b) appending exactly `C` samples to an
empty buffer without a bucket crossing triggers exactly one flush — the log
gains exactly one `flush` event and no `rotation`, the buffer contents are
appended to the current Segment's file and the file and label are unchanged —
and the buffer is empty immediately after that flush. -/
theorem claim4_capacity (t0 : ℚ) (samples0 : List (ℚ × ℚ))
    (s : LoopState) (samples : List (ℚ × ℚ))
    (ht : s.time = []) (hp : s.p = [])
    (hlen : samples.length = 600 * 20) (hnc : NoCrossing s samples) :
    (run (init t0) samples0).time.length ≤ 600 * 20 ∧
    (run (init t0) samples0).p.length ≤ 600 * 20 ∧
    (run s samples).time = [] ∧
    (run s samples).p = [] ∧
    (run s samples).log = s.log ++ [Event.flush] ∧
    (run s samples).filename = s.filename ∧
    (run s samples).store =
      flushStore s.store s.filename (samples.map Prod.fst)
        (samples.map Prod.snd) := by
  obtain ⟨hinv1, hinv2⟩ : SizedInv (run (init t0) samples0) :=
    run_sizedInv samples0 (init t0) ⟨rfl, by norm_num [init]⟩
  have hmain : (run s samples).time = [] ∧
      (run s samples).p = [] ∧
      (run s samples).log = s.log ++ [Event.flush] ∧
      (run s samples).filename = s.filename ∧
      (run s samples).store =
        flushStore s.store s.filename (samples.map Prod.fst)
          (samples.map Prod.snd) := by
    rcases List.eq_nil_or_concat samples with hnil | ⟨ys, y, hcat⟩
    · subst hnil
      simp at hlen
    · rw [List.concat_eq_append] at hcat
      subst hcat
      have hyslen : ys.length = 600 * 20 - 1 := by
        simp only [List.length_append, List.length_singleton] at hlen
        omega
      obtain ⟨hncy, hncz⟩ := noCrossing_append ys s [y] hnc
      have hys := run_plain_of_small ys s hncy (by rw [ht, hp])
        (by rw [ht]; simp only [List.length_nil]; omega)
      have hcond1 : datePart (minuteLabel ((run s ys).next_tick +
          interval_s)) = datePart (run s ys).tmpdate :=
        (noCrossing_cons.mp hncz).1
      have hcond2 : ((run s ys).time ++ [y.1]).length = 600 * 20 := by
        rw [hys]
        simp only [List.length_append, List.length_singleton,
          List.length_map, ht, List.length_nil]
        omega
      have hflush := step_eq_flush (run s ys) y hcond1 hcond2
      have hrun : run s (ys ++ [y]) = step (run s ys) y := run_append s ys y
      refine ⟨by rw [hrun, hflush], by rw [hrun, hflush], ?_, ?_, ?_⟩
      · rw [hrun, hflush]
        show (run s ys).log ++ [Event.flush] = s.log ++ [Event.flush]
        rw [hys]
      · rw [hrun, hflush]
        show (run s ys).filename = s.filename
        rw [hys]
      · rw [hrun, hflush]
        show flushStore (run s ys).store (run s ys).filename
            ((run s ys).time ++ [y.1]) ((run s ys).p ++ [y.2]) = _
        rw [hys]
        simp only [ht, hp, List.nil_append, List.map_append, List.map_cons,
          List.map_nil]
  exact ⟨by omega, by omega, hmain.1, hmain.2.1, hmain.2.2.1,
    hmain.2.2.2.1, hmain.2.2.2.2⟩

/-- A loop state at the epoch with an empty buffer, used to witness the
capacity flush. -/
def cap4 : LoopState :=
  { time := [], p := [], tmpdate := "7001010000".toList,
    filename := mkFilename ("7001010000".toList), next_tick := 0,
    store := fun n => if n = mkFilename ("7001010000".toList) then some []
                      else none,
    log := [] }

/-- Witness for C4: start at `init 0` with no samples for the invariant, and
push exactly `600*20` samples through `cap4` for the capacity flush. -/
theorem claim4_witness :
    (run (init 0) []).time.length ≤ 600 * 20 ∧
    (run (init 0) []).p.length ≤ 600 * 20 ∧
    (run cap4 (List.replicate (600 * 20) ((0 : ℚ), (0 : ℚ)))).time = [] ∧
    (run cap4 (List.replicate (600 * 20) ((0 : ℚ), (0 : ℚ)))).p = [] ∧
    (run cap4 (List.replicate (600 * 20) ((0 : ℚ), (0 : ℚ)))).log =
      cap4.log ++ [Event.flush] ∧
    (run cap4 (List.replicate (600 * 20) ((0 : ℚ), (0 : ℚ)))).filename =
      cap4.filename ∧
    (run cap4 (List.replicate (600 * 20) ((0 : ℚ), (0 : ℚ)))).store =
      flushStore cap4.store cap4.filename
        ((List.replicate (600 * 20) ((0 : ℚ), (0 : ℚ))).map Prod.fst)
        ((List.replicate (600 * 20) ((0 : ℚ), (0 : ℚ))).map Prod.snd) :=
  claim4_capacity 0 [] cap4 (List.replicate (600 * 20) ((0 : ℚ), (0 : ℚ)))
    rfl rfl (by rw [List.length_replicate])
    (noCrossing_day0 _ cap4 (by decide) le_rfl
      (by rw [List.length_replicate]
          show (0 : ℚ) + ((600 * 20 : ℕ) : ℚ) * interval_s < 86400
          rw [interval_s]
          push_cast
          norm_num))

end MbrLcard
